import Mathlib

/-!
# Verification of the `ng-log` crate

Shallow embedding of `src/lib.rs` (the whole repository) and proofs of the
specification claims. Rust `String`s are modelled as `List Char`, bytes as
`Nat` (all arithmetic used is XOR, which keeps values below 256), and
`std::io::Result` as `Except NgError`.
-/

namespace NgSpec

/-- The errors the crate can produce. In the source every error is an
`std::io::Error` of kind `InvalidData`; the two structural errors carry the
fixed messages `"Bad event string"` and `"Non-even log length"`, while UTF-8
failures carry the message of the underlying `FromUtf8Error` (not modelled
byte-for-byte, so they get their own constructor). -/
inductive NgError where
  | malformedInput (msg : String)
  | encodingError
deriving DecidableEq, Repr

/-- Rust `str::split(c)`: split on a character, preserving empty fields.
Always returns at least one field (`split` on `""` yields `[""]`). -/
def splitOnChar (c : Char) : List Char → List (List Char)
  | [] => [[]]
  | x :: xs =>
    match splitOnChar c xs with
    | [] => [[]]
    | f :: rest => if x = c then [] :: f :: rest else (x :: f) :: rest

/-- Join a list of fields with a single-character separator between every
pair of adjacent fields (no leading or trailing separator). -/
def joinSep (c : Char) : List (List Char) → List Char
  | [] => []
  | [x] => x
  | x :: y :: rest => x ++ c :: joinSep c (y :: rest)

/-- Strip one trailing `'\r'`, as Rust `str::lines` does to a line that was
terminated by `"\r\n"`. -/
def stripCR (l : List Char) : List Char :=
  if l.getLast? = some '\r' then l.dropLast else l

/-- Rust `str::lines`: split on `'\n'`, strip a `'\r'` left at the end of
each terminated line (so `"\r\n"` also terminates a line), and do not emit
an empty final line for a trailing terminator. -/
def rustLines (s : List Char) : List (List Char) :=
  let ps := splitOnChar '\n' s
  ps.dropLast.map stripCR ++
    (match ps.getLast? with
     | some [] => []
     | some l => [l]
     | none => [])

/-- An ngLog event (`NgEvent` in the source): timestamp, optional event
class, event id, and the remaining parameters, all opaque text. -/
structure NgEvent where
  timestamp : List Char
  event_class : Option (List Char)
  event_id : List Char
  event_params : List (List Char)
deriving DecidableEq, Repr

/-- An ngLog file (`NgLog` in the source): an ordered list of events. -/
structure NgLog where
  events : List NgEvent
deriving DecidableEq, Repr

/-- `NgEvent::from_string`: split the line on TAB into columns; fewer than
two columns is an error, two columns give timestamp and id, three or more
give timestamp, class, id and the remaining columns as parameters. -/
def NgEvent.from_string (s : List Char) : Except NgError NgEvent :=
  match splitOnChar '\t' s with
  | [c0, c1] => .ok ⟨c0, none, c1, []⟩
  | c0 :: c1 :: c2 :: rest => .ok ⟨c0, some c1, c2, rest⟩
  | _ => .error (.malformedInput "Bad event string")

/-- The `for line in s.lines()` loop of `NgLog::from_string`: parse each
line in order, stopping at the first error. -/
def parseLines : List (List Char) → Except NgError (List NgEvent)
  | [] => .ok []
  | l :: ls =>
    match NgEvent.from_string l with
    | .error e => .error e
    | .ok ev =>
      match parseLines ls with
      | .error e => .error e
      | .ok evs => .ok (ev :: evs)

/-- `NgLog::from_string`: parse every line of the input in order into a
log, failing on the first malformed line. -/
def NgLog.from_string (s : List Char) : Except NgError NgLog :=
  (parseLines (rustLines s)).map NgLog.mk

/-- `impl ToString for NgEvent`: timestamp, then the class when present,
then the id, then each parameter, a TAB before every field after the
first. -/
def NgEvent.to_string (e : NgEvent) : List Char :=
  let s := e.timestamp
  let s := match e.event_class with
    | some v => s ++ '\t' :: v
    | none => s
  let s := s ++ '\t' :: e.event_id
  e.event_params.foldl (fun acc v => acc ++ '\t' :: v) s

/-- `impl ToString for NgLog`: concatenate each event's rendering followed
by a newline. -/
def NgLog.to_string (l : NgLog) : List Char :=
  l.events.foldl (fun acc e => acc ++ e.to_string ++ ['\n']) []

/-- The XOR decoding loop of `NgLog::world_from_reader`: each consecutive
non-overlapping pair of input bytes produces the XOR of the two. (The
source iterates `data.chunks(2)`; the input length is checked to be even
before this runs, so every chunk is a pair.) -/
def decodePairs : List Nat → List Nat
  | b0 :: b1 :: rest => (b0 ^^^ b1) :: decodePairs rest
  | _ => []

/-- Whether `b` is a UTF-8 continuation byte. -/
def isCont (b : Nat) : Bool := 0x80 ≤ b ∧ b ≤ 0xBF

/-- `String::from_utf8`, modelled from the Rust standard library's UTF-8
validation (the source delegates to it): decode a byte sequence as UTF-8,
rejecting overlong forms, surrogates and code points above `0x10FFFF`;
`none` when the bytes are not valid UTF-8. -/
def utf8Decode : List Nat → Option (List Char)
  | [] => some []
  | b0 :: rest =>
    if b0 < 0x80 then
      (utf8Decode rest).map (Char.ofNat b0 :: ·)
    else if 0xC2 ≤ b0 ∧ b0 ≤ 0xDF then
      match rest with
      | b1 :: rest1 =>
        if isCont b1 then
          (utf8Decode rest1).map
            (Char.ofNat ((b0 - 0xC0) <<< 6 + (b1 - 0x80)) :: ·)
        else none
      | [] => none
    else if 0xE0 ≤ b0 ∧ b0 ≤ 0xEF then
      match rest with
      | b1 :: b2 :: rest2 =>
        if ((if b0 = 0xE0 then 0xA0 else 0x80) ≤ b1 ∧
            b1 ≤ (if b0 = 0xED then 0x9F else 0xBF)) ∧ isCont b2 then
          (utf8Decode rest2).map
            (Char.ofNat ((b0 - 0xE0) <<< 12 + (b1 - 0x80) <<< 6 + (b2 - 0x80)) :: ·)
        else none
      | _ => none
    else if 0xF0 ≤ b0 ∧ b0 ≤ 0xF4 then
      match rest with
      | b1 :: b2 :: b3 :: rest3 =>
        if ((if b0 = 0xF0 then 0x90 else 0x80) ≤ b1 ∧
            b1 ≤ (if b0 = 0xF4 then 0x8F else 0xBF)) ∧ isCont b2 ∧ isCont b3 then
          (utf8Decode rest3).map
            (Char.ofNat ((b0 - 0xF0) <<< 18 + (b1 - 0x80) <<< 12 +
              (b2 - 0x80) <<< 6 + (b3 - 0x80)) :: ·)
        else none
      | _ => none
    else none

/-- `NgLog::local_from_reader` after the bytes have been read: interpret
the bytes as UTF-8 (an invalid sequence is an encoding error) and delegate
to `NgLog::from_string`. -/
def NgLog.local_from_reader (data : List Nat) : Except NgError NgLog :=
  match utf8Decode data with
  | none => .error .encodingError
  | some s => NgLog.from_string s

/-- `NgLog::world_from_reader` after the bytes have been read: reject an
odd-length input, XOR-decode the byte pairs, interpret the result as UTF-8
and delegate to `NgLog::from_string`. -/
def NgLog.world_from_reader (data : List Nat) : Except NgError NgLog :=
  if data.length % 2 ≠ 0 then .error (.malformedInput "Non-even log length")
  else
    match utf8Decode (decodePairs data) with
    | none => .error .encodingError
    | some s => NgLog.from_string s

/-- The field sequence the spec says an event serializes: timestamp, then
the class exactly when present, then the id, then the parameters in
order. -/
def specEventFields (e : NgEvent) : List (List Char) :=
  e.timestamp ::
    (match e.event_class with | some c => [c] | none => []) ++
    e.event_id :: e.event_params

/-- The spec's round-trip right-hand side: every line, the last included,
followed by one newline terminator. -/
def linesNewlineTerminated (ls : List (List Char)) : List Char :=
  ls.foldr (fun l acc => l ++ '\n' :: acc) []

end NgSpec

namespace NgSpec

/-! ## Helper lemmas -/

theorem splitOnChar_ne_nil (c : Char) (s : List Char) : splitOnChar c s ≠ [] := by
  cases s with
  | nil => simp [splitOnChar]
  | cons x xs =>
    rw [splitOnChar]
    cases h : splitOnChar c xs with
    | nil => simp
    | cons f rest =>
      dsimp only
      split <;> simp

theorem joinSep_cons₂ (c : Char) (a b : List Char) (r : List (List Char)) :
    joinSep c (a :: b :: r) = a ++ c :: joinSep c (b :: r) := rfl

theorem joinSep_splitOnChar (c : Char) (s : List Char) :
    joinSep c (splitOnChar c s) = s := by
  induction s with
  | nil => rfl
  | cons x xs ih =>
    rw [splitOnChar]
    cases h : splitOnChar c xs with
    | nil => exact absurd h (splitOnChar_ne_nil c xs)
    | cons f rest =>
      rw [h] at ih
      dsimp only
      by_cases hx : x = c
      · subst hx
        simp [joinSep_cons₂, ih]
      · rw [if_neg hx]
        cases rest with
        | nil =>
          simp only [joinSep] at ih ⊢
          rw [ih]
        | cons g r2 =>
          rw [joinSep_cons₂] at ih ⊢
          rw [List.cons_append, ih]

theorem joinSep_eq_flatten (c : Char) (x : List Char) (xs : List (List Char)) :
    joinSep c (x :: xs) = x ++ (xs.map (c :: ·)).flatten := by
  induction xs generalizing x with
  | nil => simp [joinSep]
  | cons y ys ih => simp [joinSep_cons₂, ih]

theorem foldl_tabs (ps : List (List Char)) (init : List Char) :
    ps.foldl (fun acc v => acc ++ '\t' :: v) init
      = init ++ (ps.map ('\t' :: ·)).flatten := by
  induction ps generalizing init with
  | nil => simp
  | cons p ps ih => simp [ih]

/-- An event always serializes to its spec field sequence joined by TABs. -/
theorem to_string_eq_joinSep (e : NgEvent) :
    e.to_string = joinSep '\t' (specEventFields e) := by
  obtain ⟨ts, cls, id, ps⟩ := e
  cases cls <;>
    simp [NgEvent.to_string, specEventFields, foldl_tabs, joinSep_eq_flatten]

/-- A successfully parsed event's spec field sequence is exactly the TAB
split of the line it was parsed from. -/
theorem from_string_fields {l : List Char} {e : NgEvent}
    (h : NgEvent.from_string l = .ok e) :
    specEventFields e = splitOnChar '\t' l := by
  unfold NgEvent.from_string at h
  rcases hs : splitOnChar '\t' l with _ | ⟨a, _ | ⟨b, _ | ⟨c, rest⟩⟩⟩ <;>
    rw [hs] at h <;> simp at h
  · rw [← h]; simp [specEventFields]
  · rw [← h]; simp [specEventFields]

/-- Parse-then-serialize is the identity on a single successfully parsed
line. -/
theorem event_roundtrip {l : List Char} {e : NgEvent}
    (h : NgEvent.from_string l = .ok e) :
    e.to_string = l := by
  rw [to_string_eq_joinSep, from_string_fields h, joinSep_splitOnChar]

/-- The only error an event parse can produce. -/
theorem event_error_msg {l : List Char} {e : NgError}
    (h : NgEvent.from_string l = .error e) :
    e = .malformedInput "Bad event string" := by
  unfold NgEvent.from_string at h
  rcases hs : splitOnChar '\t' l with _ | ⟨a, _ | ⟨b, _ | ⟨c, rest⟩⟩⟩ <;>
    rw [hs] at h <;> simp at h
  · exact h.symm
  · exact h.symm

theorem log_to_string_eq (L : NgLog) :
    L.to_string = (L.events.map (fun e => e.to_string ++ ['\n'])).flatten := by
  have gen : ∀ (es : List NgEvent) (init : List Char),
      es.foldl (fun acc e => acc ++ e.to_string ++ ['\n']) init
        = init ++ (es.map (fun e => e.to_string ++ ['\n'])).flatten := by
    intro es
    induction es with
    | nil => simp
    | cons e es ih =>
      intro init
      rw [List.foldl_cons, ih]
      simp
  simpa [NgLog.to_string] using gen L.events []

theorem parseLines_ok_flatten {ls : List (List Char)} {evs : List NgEvent}
    (h : parseLines ls = .ok evs) :
    (evs.map (fun e => e.to_string ++ ['\n'])).flatten = linesNewlineTerminated ls := by
  induction ls generalizing evs with
  | nil =>
    simp only [parseLines] at h
    cases h
    rfl
  | cons l ls ih =>
    simp only [parseLines] at h
    cases h1 : NgEvent.from_string l with
    | error e => rw [h1] at h; cases h
    | ok ev =>
      rw [h1] at h
      cases h2 : parseLines ls with
      | error e => rw [h2] at h; cases h
      | ok evs' =>
        rw [h2] at h
        cases h
        simp only [List.map_cons, List.flatten_cons, ih h2, linesNewlineTerminated,
          List.foldr_cons, event_roundtrip h1]
        simp [linesNewlineTerminated, List.append_assoc]

end NgSpec

namespace NgSpec

theorem splitOnChar_count (c : Char) (s : List Char) :
    (splitOnChar c s).length = s.count c + 1 := by
  induction s with
  | nil => simp [splitOnChar]
  | cons x xs ih =>
    rw [splitOnChar]
    cases h : splitOnChar c xs with
    | nil => exact absurd h (splitOnChar_ne_nil c xs)
    | cons f rest =>
      rw [h] at ih
      dsimp only
      by_cases hx : x = c
      · subst hx
        rw [if_pos rfl, List.count_cons_self]
        simp only [List.length_cons] at ih ⊢
        omega
      · rw [if_neg hx, List.count_cons_of_ne (fun hc => hx hc.symm)]
        simp only [List.length_cons] at ih ⊢
        omega

/-- C2: `NgEvent::from_string` splits its line on TAB preserving empty
fields (one field per TAB plus one) and maps the field count exactly:
fewer than two fields fail with `MalformedInput`, exactly two give
timestamp and id with no class and no params, three or more give
timestamp, class, id and the remaining fields as params, in order. -/
theorem c2_event_field_mapping (s : List Char) :
    (splitOnChar '\t' s).length = s.count '\t' + 1 ∧
    ((splitOnChar '\t' s).length < 2 →
      NgEvent.from_string s = .error (.malformedInput "Bad event string")) ∧
    ((splitOnChar '\t' s).length = 2 →
      NgEvent.from_string s =
        .ok ⟨(splitOnChar '\t' s).getD 0 [], none, (splitOnChar '\t' s).getD 1 [], []⟩) ∧
    (2 < (splitOnChar '\t' s).length →
      NgEvent.from_string s =
        .ok ⟨(splitOnChar '\t' s).getD 0 [], some ((splitOnChar '\t' s).getD 1 []),
             (splitOnChar '\t' s).getD 2 [], (splitOnChar '\t' s).drop 3⟩) := by
  have hx := splitOnChar_ne_nil '\t' s
  refine ⟨splitOnChar_count '\t' s, ?_, ?_, ?_⟩ <;>
    rcases h : splitOnChar '\t' s with _ | ⟨a, _ | ⟨b, _ | ⟨c, rest⟩⟩⟩ <;>
      intro hl <;>
      (simp_all [NgEvent.from_string]; try omega)

/-- C2 witness: a concrete four-field line takes the three-or-more branch. -/
theorem c2_event_field_mapping_witness :
    2 < (splitOnChar '\t' ['1', '\t', 'A', '\t', 'B', '\t', 'p']).length ∧
    NgEvent.from_string ['1', '\t', 'A', '\t', 'B', '\t', 'p'] =
      .ok ⟨(splitOnChar '\t' ['1', '\t', 'A', '\t', 'B', '\t', 'p']).getD 0 [],
           some ((splitOnChar '\t' ['1', '\t', 'A', '\t', 'B', '\t', 'p']).getD 1 []),
           (splitOnChar '\t' ['1', '\t', 'A', '\t', 'B', '\t', 'p']).getD 2 [],
           (splitOnChar '\t' ['1', '\t', 'A', '\t', 'B', '\t', 'p']).drop 3⟩ :=
  ⟨by decide, (c2_event_field_mapping ['1', '\t', 'A', '\t', 'B', '\t', 'p']).2.2.2 (by decide)⟩

end NgSpec

namespace NgSpec

/-- C1: for any text that `NgLog::from_string` parses successfully,
`NgLog::to_string` of the resulting log reproduces the text with every
line, the last included, terminated by exactly one newline. -/
theorem c1_local_roundtrip (T : List Char) (L : NgLog)
    (h : NgLog.from_string T = .ok L) :
    L.to_string = linesNewlineTerminated (rustLines T) := by
  unfold NgLog.from_string at h
  cases hp : parseLines (rustLines T) with
  | error e => rw [hp] at h; cases h
  | ok evs =>
    rw [hp] at h
    simp only [Except.map] at h
    injection h with h2
    subst h2
    rw [log_to_string_eq]
    exact parseLines_ok_flatten hp

/-- C1 witness: a two-line text, the second line unterminated, round-trips
to the newline-terminated form. -/
theorem c1_local_roundtrip_witness :
    NgLog.from_string ['0', '\t', 'a', '\n', '1', '\t', 'b'] =
      .ok ⟨[⟨['0'], none, ['a'], []⟩, ⟨['1'], none, ['b'], []⟩]⟩ ∧
    (NgLog.mk [⟨['0'], none, ['a'], []⟩, ⟨['1'], none, ['b'], []⟩]).to_string =
      linesNewlineTerminated (rustLines ['0', '\t', 'a', '\n', '1', '\t', 'b']) :=
  ⟨by rfl, c1_local_roundtrip ['0', '\t', 'a', '\n', '1', '\t', 'b'] _ (by rfl)⟩

/-- C3: on an even-length input the world-variant decoder emits exactly
half as many bytes, the `i`-th being the XOR of input bytes `2i` and
`2i + 1`. -/
theorem c3_decoder_xor (B : List Nat) (h : B.length % 2 = 0) :
    (decodePairs B).length = B.length / 2 ∧
    ∀ i, i < B.length / 2 →
      (decodePairs B).getD i 0 = (B.getD (2 * i) 0) ^^^ (B.getD (2 * i + 1) 0) := by
  induction B using decodePairs.induct with
  | case1 b0 b1 rest ih =>
    have hrest : rest.length % 2 = 0 := by
      simp only [List.length_cons] at h
      omega
    obtain ⟨ihlen, ihidx⟩ := ih hrest
    constructor
    · simp only [decodePairs, List.length_cons, ihlen]
      omega
    · intro i hi
      cases i with
      | zero => simp [decodePairs]
      | succ j =>
        have h2 : 2 * (j + 1) = 2 * j + 1 + 1 := by omega
        have h3 : 2 * (j + 1) + 1 = 2 * j + 1 + 1 + 1 := by omega
        rw [h3, h2]
        simp only [decodePairs, List.getD_cons_succ]
        apply ihidx
        simp only [List.length_cons] at hi
        omega
  | case2 B hB =>
    cases B with
    | nil =>
      refine ⟨rfl, ?_⟩
      intro i hi
      simp at hi
    | cons b brest =>
      cases brest with
      | nil => simp at h
      | cons b1 brest2 => exact (hB b b1 brest2 rfl).elim

/-- C3 witness: the decoder on the concrete input `[1, 2, 3, 4]`. -/
theorem c3_decoder_xor_witness :
    ([1, 2, 3, 4] : List Nat).length % 2 = 0 ∧
    ((decodePairs [1, 2, 3, 4]).length = ([1, 2, 3, 4] : List Nat).length / 2 ∧
     ∀ i, i < ([1, 2, 3, 4] : List Nat).length / 2 →
       (decodePairs [1, 2, 3, 4]).getD i 0 =
         (([1, 2, 3, 4] : List Nat).getD (2 * i) 0) ^^^
           (([1, 2, 3, 4] : List Nat).getD (2 * i + 1) 0)) :=
  ⟨by decide, c3_decoder_xor [1, 2, 3, 4] (by decide)⟩

/-- C4: an odd-length input makes `NgLog::world_from_reader` fail with the
`MalformedInput` error `"Non-even log length"`, whatever the byte
contents, before decoding or UTF-8 interpretation. -/
theorem c4_odd_length_rejected (B : List Nat) (h : B.length % 2 = 1) :
    NgLog.world_from_reader B = .error (.malformedInput "Non-even log length") := by
  rw [NgLog.world_from_reader, if_pos (by omega)]

/-- C4 witness: the singleton byte buffer `[0]`. -/
theorem c4_odd_length_rejected_witness :
    ([0] : List Nat).length % 2 = 1 ∧
    NgLog.world_from_reader [0] = .error (.malformedInput "Non-even log length") :=
  ⟨by decide, c4_odd_length_rejected [0] (by decide)⟩

/-- C5: `NgLog::to_string` is the concatenation of each event's rendered
line followed by one newline, so a log with `n` events gains exactly `n`
appended newline characters, one after each event line. -/
theorem c5_log_serialization (L : NgLog) :
    L.to_string = (L.events.map (fun e => e.to_string ++ ['\n'])).flatten ∧
    (L.to_string).count '\n' =
      (L.events.map (fun e => (e.to_string).count '\n')).sum + L.events.length := by
  refine ⟨log_to_string_eq L, ?_⟩
  rw [log_to_string_eq]
  induction L.events with
  | nil => simp
  | cons e es ih =>
    simp only [List.map_cons, List.flatten_cons, List.count_append, List.sum_cons,
      List.length_cons, ih]
    simp [List.count_cons]
    omega

/-- C5 witness: instantiation at a concrete one-event log. -/
theorem c5_log_serialization_witness :
    (NgLog.mk [⟨['0'], none, ['a'], []⟩]).to_string =
      ((NgLog.mk [⟨['0'], none, ['a'], []⟩]).events.map
        (fun e => e.to_string ++ ['\n'])).flatten ∧
    ((NgLog.mk [⟨['0'], none, ['a'], []⟩]).to_string).count '\n' =
      ((NgLog.mk [⟨['0'], none, ['a'], []⟩]).events.map
        (fun e => (e.to_string).count '\n')).sum +
        (NgLog.mk [⟨['0'], none, ['a'], []⟩]).events.length :=
  c5_log_serialization (NgLog.mk [⟨['0'], none, ['a'], []⟩])

/-- C6: `NgEvent::to_string` renders, for any event however built,
timestamp, then the class exactly when present, then the id, then the
params in order, TAB-separated with no trailing TAB and no validation. -/
theorem c6_event_serialization (e : NgEvent) :
    e.to_string = joinSep '\t' (specEventFields e) :=
  to_string_eq_joinSep e

/-- C6 witness: instantiation at a directly constructed event with a class
and two params. -/
theorem c6_event_serialization_witness :
    (NgEvent.mk ['1'] (some ['C']) ['i'] [['p'], ['q']]).to_string =
      joinSep '\t' (specEventFields (NgEvent.mk ['1'] (some ['C']) ['i'] [['p'], ['q']])) :=
  c6_event_serialization (NgEvent.mk ['1'] (some ['C']) ['i'] [['p'], ['q']])

end NgSpec

namespace NgSpec

theorem parseLines_fail_fast (ls : List (List Char)) :
    (∃ evs, parseLines ls = .ok evs ∧ evs.length = ls.length ∧
      ∀ i, i < ls.length →
        NgEvent.from_string (ls.getD i []) = .ok (evs.getD i ⟨[], none, [], []⟩)) ∨
    (∃ i err, parseLines ls = .error err ∧ i < ls.length ∧
      NgEvent.from_string (ls.getD i []) = .error err ∧
      ∀ j, j < i → ∃ e, NgEvent.from_string (ls.getD j []) = .ok e) := by
  induction ls with
  | nil =>
    left
    exact ⟨[], rfl, rfl, fun i hi => absurd hi (by simp)⟩
  | cons l ls ih =>
    cases h1 : NgEvent.from_string l with
    | error e =>
      right
      refine ⟨0, e, ?_, by simp, by simpa using h1, fun j hj => absurd hj (by omega)⟩
      simp only [parseLines, h1]
    | ok ev =>
      rcases ih with ⟨evs, h2, hlen, hidx⟩ | ⟨i, err, h2, hi, herr, hok⟩
      · left
        refine ⟨ev :: evs, ?_, by simp [hlen], ?_⟩
        · simp only [parseLines, h1, h2]
        · intro i hi
          cases i with
          | zero => simpa using h1
          | succ j =>
            simp only [List.getD_cons_succ]
            exact hidx j (by simpa using hi)
      · right
        refine ⟨i + 1, err, ?_, by simpa using hi, by simpa using herr, ?_⟩
        · simp only [parseLines, h1, h2]
        · intro j hj
          cases j with
          | zero => exact ⟨ev, by simpa using h1⟩
          | succ k =>
            simp only [List.getD_cons_succ]
            exact hok k (by omega)

/-- C7: parsing is fail-fast and atomic: for any input, `NgLog::from_string`
either returns a log holding one successfully parsed event per input line
in order, or the error of the first malformed line, with every earlier
line well-formed and no partial log. -/
theorem c7_fail_fast_atomic (T : List Char) :
    (∃ L, NgLog.from_string T = .ok L ∧ L.events.length = (rustLines T).length ∧
      ∀ i, i < (rustLines T).length →
        NgEvent.from_string ((rustLines T).getD i []) =
          .ok (L.events.getD i ⟨[], none, [], []⟩)) ∨
    (∃ i err, NgLog.from_string T = .error err ∧ i < (rustLines T).length ∧
      NgEvent.from_string ((rustLines T).getD i []) = .error err ∧
      ∀ j, j < i → ∃ e, NgEvent.from_string ((rustLines T).getD j []) = .ok e) := by
  rcases parseLines_fail_fast (rustLines T) with ⟨evs, h, hlen, hidx⟩ | ⟨i, err, h, hi, herr, hok⟩
  · left
    exact ⟨⟨evs⟩, by simp [NgLog.from_string, h, Except.map], hlen, hidx⟩
  · right
    exact ⟨i, err, by simp [NgLog.from_string, h, Except.map], hi, herr, hok⟩

/-- C7 witness: instantiation at a concrete input whose second line is
malformed. -/
theorem c7_fail_fast_atomic_witness :
    (∃ L, NgLog.from_string ['0', '\t', 'a', '\n', 'x'] = .ok L ∧
      L.events.length = (rustLines ['0', '\t', 'a', '\n', 'x']).length ∧
      ∀ i, i < (rustLines ['0', '\t', 'a', '\n', 'x']).length →
        NgEvent.from_string ((rustLines ['0', '\t', 'a', '\n', 'x']).getD i []) =
          .ok (L.events.getD i ⟨[], none, [], []⟩)) ∨
    (∃ i err, NgLog.from_string ['0', '\t', 'a', '\n', 'x'] = .error err ∧
      i < (rustLines ['0', '\t', 'a', '\n', 'x']).length ∧
      NgEvent.from_string ((rustLines ['0', '\t', 'a', '\n', 'x']).getD i []) = .error err ∧
      ∀ j, j < i → ∃ e,
        NgEvent.from_string ((rustLines ['0', '\t', 'a', '\n', 'x']).getD j []) = .ok e) :=
  c7_fail_fast_atomic ['0', '\t', 'a', '\n', 'x']

/-- C8: a byte sequence rejected by UTF-8 validation makes
`NgLog::local_from_reader` fail with the encoding error, and an
even-length byte sequence whose XOR decoding is rejected by UTF-8
validation makes `NgLog::world_from_reader` fail with the encoding
error. -/
theorem c8_invalid_utf8 (B : List Nat) :
    (utf8Decode B = none → NgLog.local_from_reader B = .error .encodingError) ∧
    (B.length % 2 = 0 → utf8Decode (decodePairs B) = none →
      NgLog.world_from_reader B = .error .encodingError) := by
  constructor
  · intro h
    simp only [NgLog.local_from_reader, h]
  · intro he h
    rw [NgLog.world_from_reader, if_neg (by omega)]
    simp only [h]

/-- C8 witness: the lone continuation byte `0x80` for the local path, and
the pair `[0x80, 0x00]` (decoding to `[0x80]`) for the world path. -/
theorem c8_invalid_utf8_witness :
    (utf8Decode [0x80] = none ∧
      NgLog.local_from_reader [0x80] = .error .encodingError) ∧
    (([0x80, 0x00] : List Nat).length % 2 = 0 ∧
      utf8Decode (decodePairs [0x80, 0x00]) = none ∧
      NgLog.world_from_reader [0x80, 0x00] = .error .encodingError) :=
  ⟨⟨by rfl, (c8_invalid_utf8 [0x80]).1 (by rfl)⟩,
   ⟨by rfl, by rfl, (c8_invalid_utf8 [0x80, 0x00]).2 (by rfl) (by rfl)⟩⟩

theorem parseLines_empty_line {ls : List (List Char)} (h : [] ∈ ls) :
    parseLines ls = .error (.malformedInput "Bad event string") := by
  induction ls with
  | nil => simp at h
  | cons l ls ih =>
    cases h1 : NgEvent.from_string l with
    | error e =>
      rw [event_error_msg h1] at h1
      simp only [parseLines, h1]
    | ok ev =>
      have hne : l ≠ [] := by
        intro hl
        subst hl
        exact absurd h1 (by simp [NgEvent.from_string, splitOnChar])
      have hmem : [] ∈ ls := by
        rcases List.mem_cons.mp h with h' | h'
        · exact absurd h'.symm hne
        · exact h'
      simp only [parseLines, h1, ih hmem]

/-- C9: an input containing an empty line (other than a final trailing
terminator) fails to parse: the empty line splits into one single (empty)
field, falls under the fewer-than-two-fields rule, and makes
`NgLog::from_string` fail with `MalformedInput`. -/
theorem c9_empty_line_rejected (T : List Char) (h : [] ∈ rustLines T) :
    (splitOnChar '\t' ([] : List Char)).length = 1 ∧
    NgEvent.from_string [] = .error (.malformedInput "Bad event string") ∧
    NgLog.from_string T = .error (.malformedInput "Bad event string") := by
  refine ⟨rfl, rfl, ?_⟩
  simp only [NgLog.from_string, parseLines_empty_line h, Except.map]

/-- C9 witness: the input consisting of two newline characters, whose two
lines are both empty. -/
theorem c9_empty_line_rejected_witness :
    [] ∈ rustLines ['\n', '\n'] ∧
    ((splitOnChar '\t' ([] : List Char)).length = 1 ∧
     NgEvent.from_string [] = .error (.malformedInput "Bad event string") ∧
     NgLog.from_string ['\n', '\n'] = .error (.malformedInput "Bad event string")) :=
  ⟨by decide, c9_empty_line_rejected ['\n', '\n'] (by decide)⟩

/-- C10: the empty input parses to a log with no events, and that log
serializes back to the empty string. -/
theorem c10_empty_input :
    NgLog.from_string [] = .ok ⟨[]⟩ ∧ NgLog.to_string ⟨[]⟩ = [] :=
  ⟨rfl, rfl⟩

end NgSpec
